import Mathlib

/-!
Shallow embedding of the HCLI habit tracker (`main.py`) and verification of
the specification's claims about it.

Modelling conventions:
* Python dictionaries (`self.data["habits"]`, `self.data["logs"]`) become
  association lists with unique keys; insertion of a fresh key appends at the
  end, matching CPython's insertion-ordered dict iteration.
* Python `datetime` values are modelled by the `DateTime` structure
  (year-month-day-hour-minute-second-microsecond, naive local time).
  `Date.toordinal` is the proleptic-Gregorian ordinal exactly as in CPython's
  `date.toordinal`, and `DateTime.totalMicros` is the instant in microseconds
  on that ordinal scale.  For the valid datetimes the program constructs,
  CPython's field-wise `datetime` comparison coincides with comparison of
  `totalMicros`, and `(a - b).days` is the floor of the instant difference in
  days, i.e. `diffDays`.
* The store serialises timestamps with `datetime.isoformat()` and re-parses
  with `fromisoformat`; these round-trip exactly, so log entries are kept as
  `DateTime` values, and where the code manipulates the serialised string
  (the `startswith` filter of `delete_habit`) the embedding applies
  `DateTime.toIso`, the exact `isoformat` rendering of the entry.
* Console printing is dropped; each operation returns a result tag plus the
  new document, with the result tags naming the code path taken (which
  message was printed).  `datetime.now()` becomes an explicit `now`/`today`
  parameter.  Parsing of the user-supplied `YYYY-MM-DD` string by `strptime`
  is kept outside the embedding: operations take the parsed `Date` (a failed
  parse only prints an error and changes nothing, which no claim is about).
-/

namespace HCLI

/-- A calendar date, as produced by Python's `datetime.date()`. -/
structure Date where
  year : Nat
  month : Nat
  day : Nat
deriving DecidableEq

/-- A naive `datetime` value: calendar date plus time of day with
microseconds. -/
structure DateTime where
  year : Nat
  month : Nat
  day : Nat
  hour : Nat
  minute : Nat
  second : Nat
  usec : Nat
deriving DecidableEq

/-- Gregorian leap-year test, as in CPython's `calendar.isleap`. -/
def isLeap (y : Nat) : Bool :=
  y % 4 == 0 && (y % 100 != 0 || y % 400 == 0)

/-- Days in the months strictly before month `m` of a non-leap year
(CPython `_days_before_month` without the leap correction). -/
def daysBeforeMonth (m : Nat) : Nat :=
  match m with
  | 1 => 0
  | 2 => 31
  | 3 => 59
  | 4 => 90
  | 5 => 120
  | 6 => 151
  | 7 => 181
  | 8 => 212
  | 9 => 243
  | 10 => 273
  | 11 => 304
  | 12 => 334
  | _ => 0

/-- Proleptic-Gregorian ordinal of a date, with `0001-01-01` as day 1 —
exactly CPython's `date.toordinal`. -/
def Date.toordinal (d : Date) : Nat :=
  365 * (d.year - 1) + (d.year - 1) / 4 - (d.year - 1) / 100 + (d.year - 1) / 400
    + daysBeforeMonth d.month
    + (if isLeap d.year ∧ 2 < d.month then 1 else 0)
    + d.day

/-- The date component of a datetime (Python `datetime.date()`). -/
def DateTime.date (t : DateTime) : Date :=
  ⟨t.year, t.month, t.day⟩

/-- The instant of a naive datetime in microseconds on the ordinal scale. -/
def DateTime.totalMicros (t : DateTime) : Nat :=
  t.date.toordinal * 86400000000
    + ((t.hour * 3600 + t.minute * 60 + t.second) * 1000000 + t.usec)

/-- `(a - b).days` for Python datetimes: the timedelta's day field is the
floor of the difference in days. -/
def diffDays (a b : DateTime) : Int :=
  Int.fdiv ((a.totalMicros : Int) - (b.totalMicros : Int)) 86400000000

/-- Python `date < date` comparison (field-lexicographic). -/
def dateLtB (a b : Date) : Bool :=
  Nat.blt a.year b.year
    || (Nat.beq a.year b.year
        && (Nat.blt a.month b.month
            || (Nat.beq a.month b.month && Nat.blt a.day b.day)))

/-- `(a - b).days` for Python dates: exact ordinal difference. -/
def dateDiffDays (a b : Date) : Int :=
  (a.toordinal : Int) - (b.toordinal : Int)

/-- Zero-pad a number to two digits, as `datetime.isoformat` renders
months, days, hours, minutes and seconds. -/
def pad2 (n : Nat) : String :=
  if n < 10 then "0" ++ toString n else toString n

/-- Zero-pad a number to four digits (the year field of `isoformat`). -/
def pad4 (n : Nat) : String :=
  if n < 10 then "000" ++ toString n
  else if n < 100 then "00" ++ toString n
  else if n < 1000 then "0" ++ toString n
  else toString n

/-- Zero-pad a number to six digits (the microsecond field of `isoformat`). -/
def pad6 (n : Nat) : String :=
  if n < 10 then "00000" ++ toString n
  else if n < 100 then "0000" ++ toString n
  else if n < 1000 then "000" ++ toString n
  else if n < 10000 then "00" ++ toString n
  else if n < 100000 then "0" ++ toString n
  else toString n

/-- Python's `datetime.isoformat()`: `YYYY-MM-DDTHH:MM:SS`, with a
`.ffffff` fraction appended only when the microsecond field is nonzero. -/
def DateTime.toIso (t : DateTime) : String :=
  pad4 t.year ++ "-" ++ pad2 t.month ++ "-" ++ pad2 t.day ++ "T"
    ++ pad2 t.hour ++ ":" ++ pad2 t.minute ++ ":" ++ pad2 t.second
    ++ (if t.usec = 0 then "" else "." ++ pad6 t.usec)

/-- Python's `str.startswith`: the prefix's characters form an initial
segment of the string's characters.  (Lean's own `String.startsWith` is
the same test at the byte level, but its loop does not reduce in the
kernel, so the embedding states it on the character lists.) -/
def pyStartsWith (s pre : String) : Bool :=
  pre.data.isPrefixOf s.data

/-- `datetime.strptime(date_str, "%Y-%m-%d")`: midnight of the parsed
calendar date. -/
def midnightOf (d : Date) : DateTime :=
  ⟨d.year, d.month, d.day, 0, 0, 0, 0⟩

/-- One registry entry: `{"periodicity": ..., "created_at": ...}`. -/
structure HabitRecord where
  periodicity : String
  created_at : DateTime
deriving DecidableEq

/-- The persisted document `{"habits": {...}, "logs": {...}}`, with the two
dicts as insertion-ordered association lists. -/
structure Doc where
  habits : List (String × HabitRecord)
  logs : List (String × List DateTime)
deriving DecidableEq

/-- Dictionary lookup on an association list: first binding of the key. -/
def alookup (key : String) : List (String × α) → Option α
  | [] => none
  | (k, v) :: rest => if k = key then some v else alookup key rest

/-- `logs[name].append(t)`, creating `logs[name] = []` first when the key is
missing (a fresh dict key is appended at the end of iteration order). -/
def appendLog (name : String) (t : DateTime) :
    List (String × List DateTime) → List (String × List DateTime)
  | [] => [(name, [t])]
  | (k, v) :: rest =>
    if k = name then (k, v ++ [t]) :: rest
    else (k, v) :: appendLog name t rest

/-- Remove the (first) binding of a key from an association list
(`del d[name]`). -/
def aremove (key : String) : List (String × α) → List (String × α)
  | [] => []
  | (k, v) :: rest => if k = key then rest else (k, v) :: aremove key rest

/-- Replace the value bound to a key (`d[name] = v`), assuming presence. -/
def aset (key : String) (v : α) : List (String × α) → List (String × α)
  | [] => []
  | (k, w) :: rest => if k = key then (k, v) :: rest else (k, w) :: aset key v rest

/-- Which message `add_habit` prints. -/
inductive AddResult where
  | invalidArgument
  | alreadyExists
  | ok
deriving DecidableEq

/-- `HabitTracker.add_habit`: reject empty arguments, reject an existing
name, otherwise insert the registry entry with `created_at = now`.  No log
entry is touched. -/
def add_habit (name periodicity : String) (now : DateTime) (doc : Doc) :
    AddResult × Doc :=
  if name = "" ∨ periodicity = "" then (.invalidArgument, doc)
  else if (alookup name doc.habits).isSome then (.alreadyExists, doc)
  else (.ok, { doc with habits := doc.habits ++ [(name, ⟨periodicity, now⟩)] })

/-- Which message `check_habit` prints. -/
inductive CheckResult where
  | notFound
  | ok
deriving DecidableEq

/-- `HabitTracker.check_habit`: append one timestamp to the habit's log —
`strptime(date_str, "%Y-%m-%d")` (midnight of the given date) when a date
was supplied, `datetime.now()` otherwise. -/
def check_habit (name : String) (dateArg : Option Date) (now : DateTime)
    (doc : Doc) : CheckResult × Doc :=
  if (alookup name doc.habits).isNone then (.notFound, doc)
  else
    let entry : DateTime :=
      match dateArg with
      | some d => midnightOf d
      | none => now
    (.ok, { doc with logs := appendLog name entry doc.logs })

/-- Which code path `delete_habit` takes. -/
inductive DeleteResult where
  | notFound
  | noLogs
  | removedCount (n : Nat)
  | deletedHabit
deriving DecidableEq

/-- `HabitTracker.delete_habit`: with a date filter, keep only the log
entries whose `isoformat` string does NOT start with
`datetime.strptime(date_str, "%Y-%m-%d").isoformat()` — note that this
prefix is the full midnight string `YYYY-MM-DDT00:00:00`, not the bare
date — and report the number removed; with no logs for the habit, print
a notice and change nothing; with no date filter, delete the registry
entry and the whole log entry. -/
def delete_habit (name : String) (dateFilter : Option Date) (doc : Doc) :
    DeleteResult × Doc :=
  if (alookup name doc.habits).isNone then (.notFound, doc)
  else
    match dateFilter with
    | some d =>
      match alookup name doc.logs with
      | none => (.noLogs, doc)
      | some entries =>
        let iso := (midnightOf d).toIso
        let kept := entries.filter (fun dt => ¬ (pyStartsWith dt.toIso iso = true))
        (.removedCount (entries.length - kept.length),
         { doc with logs := aset name kept doc.logs })
    | none =>
      (.deletedHabit,
       { doc with habits := aremove name doc.habits,
                  logs := aremove name doc.logs })

/-- Descending datetime order used by `sorted(..., reverse=True)` in
`streaks`; on the valid datetimes the program builds, Python's field-wise
comparison agrees with instant comparison. -/
def sortDescDT (logs : List DateTime) : List DateTime :=
  List.insertionSort (fun a b => b.totalMicros ≤ a.totalMicros) logs

/-- The walk of `streaks` after sorting: `streak = 1`, then for each later
timestamp `t`, with `diff = (prev - t).days`: a daily gap of exactly 1 or a
weekly gap of at most 7 extends the streak and moves the cursor; anything
else breaks out of the loop. -/
def streakLoop (period : String) : DateTime → List DateTime → Nat
  | _, [] => 1
  | prev, t :: rest =>
    if period = "daily" ∧ diffDays prev t = 1 then 1 + streakLoop period t rest
    else if period = "weekly" ∧ diffDays prev t ≤ 7 then 1 + streakLoop period t rest
    else 1

/-- The streak value the `streaks` report shows for one habit: `0` for an
empty log (the report prints the literal row "0"), otherwise the loop over
the descending-sorted timestamps. -/
def habitStreak (period : String) (logs : List DateTime) : Nat :=
  match sortDescDT logs with
  | [] => 0
  | first :: rest => streakLoop period first rest

/-- The rows of the `streaks` report: iterate over the log map, skip names
absent from the registry, and render `(name, periodicity, streak)`. -/
def streakRows (habits : List (String × HabitRecord)) :
    List (String × List DateTime) → List (String × String × Nat)
  | [] => []
  | (name, logs) :: rest =>
    match alookup name habits with
    | none => streakRows habits rest
    | some rec => (name, rec.periodicity, habitStreak rec.periodicity logs)
        :: streakRows habits rest

/-- The per-habit test of `get_pending_habits`: a habit with no log entry or
an empty log is pending; a daily habit is pending when the date of
`logs[-1]` (the last list element, not the chronological maximum) is before
today; a weekly habit is pending when today is more than 7 days after that
date; any other periodicity falls through both branches. -/
def isPendingB (today : Date) (logs : List (String × List DateTime))
    (habit : String) (rec : HabitRecord) : Bool :=
  match alookup habit logs with
  | none => true
  | some hlogs =>
    match hlogs.getLast? with
    | none => true
    | some last =>
      if rec.periodicity = "daily" ∧ dateLtB last.date today = true then true
      else if rec.periodicity = "weekly" ∧ 7 < dateDiffDays today last.date then true
      else false

/-- The loop of `get_pending_habits` over the registry, appending
`(habit, periodicity)` for each habit the test flags. -/
def pendingAux (today : Date) (logs : List (String × List DateTime)) :
    List (String × HabitRecord) → List (String × String)
  | [] => []
  | (habit, rec) :: rest =>
    if isPendingB today logs habit rec then
      (habit, rec.periodicity) :: pendingAux today logs rest
    else pendingAux today logs rest

/-- `HabitTracker.get_pending_habits`, with `datetime.now().date()` passed
in as `today`. -/
def get_pending_habits (today : Date) (doc : Doc) : List (String × String) :=
  pendingAux today doc.logs doc.habits

/-- `HabitTracker.calc_30days_checkins`: count the habit's log entries at or
after the instant `now - timedelta(days=30)`. -/
def calc_30days_checkins (now : DateTime) (doc : Doc) (name : String) : Nat :=
  let logs := (alookup name doc.logs).getD []
  (logs.filter (fun dt =>
    (now.totalMicros : Int) - 2592000000000 ≤ (dt.totalMicros : Int))).length

/-- The `struggle_list` built by `summary`: every registry habit paired with
its 30-day check-in count, in registry iteration order. -/
def struggleList (now : DateTime) (doc : Doc) : List (String × Nat) :=
  doc.habits.map (fun hr => (hr.1, calc_30days_checkins now doc hr.1))

/-- The sort key of `struggle_list.sort(key=lambda x: x[1])`: compare
entries by their 30-day count. -/
def keyLe (a b : String × Nat) : Prop :=
  a.2 ≤ b.2

instance : DecidableRel keyLe :=
  fun a b => Nat.decLe a.2 b.2

instance : IsTotal (String × Nat) keyLe :=
  ⟨fun a b => Nat.le_total a.2 b.2⟩

instance : IsTrans (String × Nat) keyLe :=
  ⟨fun _ _ _ h1 h2 => Nat.le_trans h1 h2⟩

/-- The struggled-habit group of `summary`: stable-sort the struggle list
ascending by count (Python's sort is stable, as is insertion sort), take
the first count as the minimum, and keep every entry of the sorted list
with that count. -/
def struggledHabits (now : DateTime) (doc : Doc) : List (String × Nat) :=
  match List.insertionSort keyLe (struggleList now doc) with
  | [] => []
  | m :: _ => (List.insertionSort keyLe (struggleList now doc)).filter
      (fun s => s.2 = m.2)

/-- A qualifying adjacent gap in the spec's wording (§4.2): a daily gap of
exactly 1 whole day, or a weekly gap of at most 7 whole days. -/
def specGapOk (periodicity : String) (pr : DateTime × DateTime) : Bool :=
  decide ((periodicity = "daily" ∧ diffDays pr.1 pr.2 = 1)
    ∨ (periodicity = "weekly" ∧ diffDays pr.1 pr.2 ≤ 7))

/-- Defined following the spec's wording (§4.2): after sorting descending,
the streak is one more than the length of the longest prefix of adjacent
gaps that all qualify — the single consecutive run extending backward from
the most recent check-in; zero check-ins give streak 0. -/
def specComputeStreak (periodicity : String) (logs : List DateTime) : Nat :=
  match sortDescDT logs with
  | [] => 0
  | first :: rest =>
    1 + (((first :: rest).zip rest).takeWhile (specGapOk periodicity)).length

/-- The minimum of the counts in a struggle list ("the minimum count
found", §4.4). -/
def minCount : List (String × Nat) → Nat
  | [] => 0
  | x :: xs => xs.foldl (fun m s => Nat.min m s.2) x.2

/-! ### Concrete documents and logs used by the closed theorems -/

/-- A sample daily registry record. -/
def sampleRec : HabitRecord :=
  ⟨"daily", ⟨2025, 1, 1, 9, 0, 0, 0⟩⟩

/-- One habit whose only check-in is an afternoon timestamp on
2025-03-04. -/
def docAfternoon : Doc :=
  ⟨[("Workout", sampleRec)], [("Workout", [⟨2025, 3, 4, 14, 30, 0, 0⟩])]⟩

/-- One habit checked at midnight on 2025-03-04 and mid-morning on
2025-03-05. -/
def docMidnight : Doc :=
  ⟨[("Workout", sampleRec)],
   [("Workout", [midnightOf ⟨2025, 3, 4⟩, ⟨2025, 3, 5, 10, 0, 0, 0⟩])]⟩

/-- A daily habit whose log holds a check-in today (2025-03-10, 8am)
followed by one from yesterday: the chronologically most recent check-in is
today's, but the last list element is yesterday's. -/
def docLastStale : Doc :=
  ⟨[("Workout", sampleRec)],
   [("Workout", [⟨2025, 3, 10, 8, 0, 0, 0⟩, ⟨2025, 3, 9, 8, 0, 0, 0⟩])]⟩

/-- The same document with the two log entries transposed. -/
def docLastFresh : Doc :=
  ⟨[("Workout", sampleRec)],
   [("Workout", [⟨2025, 3, 9, 8, 0, 0, 0⟩, ⟨2025, 3, 10, 8, 0, 0, 0⟩])]⟩

/-- The empty document `{"habits": {}, "logs": {}}`. -/
def emptyDoc : Doc :=
  ⟨[], []⟩

/-- Midnight check-ins on the three consecutive days 2025-03-01 ..
2025-03-03. -/
def threeConsecutive : List DateTime :=
  [⟨2025, 3, 1, 0, 0, 0, 0⟩, ⟨2025, 3, 2, 0, 0, 0, 0⟩, ⟨2025, 3, 3, 0, 0, 0, 0⟩]

/-- Five consecutive daily check-ins (2025-03-01 .. 2025-03-05), a 2-day
gap, then two more consecutive check-ins (2025-03-07, 2025-03-08): the
most recent unbroken run has length 2, the longest run in history length
5. -/
def gappedWeek : List DateTime :=
  [⟨2025, 3, 1, 0, 0, 0, 0⟩, ⟨2025, 3, 2, 0, 0, 0, 0⟩, ⟨2025, 3, 3, 0, 0, 0, 0⟩,
   ⟨2025, 3, 4, 0, 0, 0, 0⟩, ⟨2025, 3, 5, 0, 0, 0, 0⟩,
   ⟨2025, 3, 7, 0, 0, 0, 0⟩, ⟨2025, 3, 8, 0, 0, 0, 0⟩]

/-- Three habits whose 30-day counts relative to `nowStruggle` are
`A: 0`, `B: 0`, `C: 5` (`A`'s only check-in is over a year old, `B` has
none). -/
def docStruggle : Doc :=
  ⟨[("A", sampleRec), ("B", sampleRec), ("C", sampleRec)],
   [("C", [⟨2025, 3, 1, 0, 0, 0, 0⟩, ⟨2025, 3, 2, 0, 0, 0, 0⟩,
           ⟨2025, 3, 3, 0, 0, 0, 0⟩, ⟨2025, 3, 4, 0, 0, 0, 0⟩,
           ⟨2025, 3, 5, 0, 0, 0, 0⟩]),
    ("A", [⟨2024, 1, 1, 0, 0, 0, 0⟩])]⟩

/-- The reference instant for `docStruggle`. -/
def nowStruggle : DateTime :=
  ⟨2025, 3, 10, 12, 0, 0, 0⟩

/-- A registry habit `"A"` with a log entry, an orphan log entry `"B"`
absent from the registry, and a registry habit `"Z"` with no log entry at
all. -/
def docOrphan : Doc :=
  ⟨[("A", sampleRec), ("Z", sampleRec)],
   [("A", [⟨2025, 3, 1, 0, 0, 0, 0⟩]), ("B", [⟨2025, 3, 1, 0, 0, 0, 0⟩])]⟩

/-! ### Helper lemmas -/

set_option maxRecDepth 100000

/-- The cursor walk of `streaks` returns one more than the length of the
longest prefix of qualifying adjacent gaps of the (already sorted) tail. -/
theorem streakLoop_eq_run (p : String) :
    ∀ (rest : List DateTime) (prev : DateTime),
      streakLoop p prev rest
        = 1 + (((prev :: rest).zip rest).takeWhile (specGapOk p)).length := by
  intro rest
  induction rest with
  | nil => intro prev; rfl
  | cons t rest ih =>
    intro prev
    have hz : ((prev :: t :: rest).zip (t :: rest))
        = (prev, t) :: ((t :: rest).zip rest) := rfl
    rw [streakLoop, hz]
    by_cases h1 : p = "daily" ∧ diffDays prev t = 1
    · have hg : specGapOk p (prev, t) = true := by
        unfold specGapOk
        exact decide_eq_true (Or.inl h1)
      rw [if_pos h1, List.takeWhile_cons_of_pos hg, List.length_cons, ih t]
      omega
    · by_cases h2 : p = "weekly" ∧ diffDays prev t ≤ 7
      · have hg : specGapOk p (prev, t) = true := by
          unfold specGapOk
          exact decide_eq_true (Or.inr h2)
        rw [if_neg h1, if_pos h2, List.takeWhile_cons_of_pos hg, List.length_cons,
          ih t]
        omega
      · have hg : specGapOk p (prev, t) = false := by
          unfold specGapOk
          exact decide_eq_false (fun h => h.elim h1 h2)
        rw [if_neg h1, if_neg h2, List.takeWhile_cons_of_neg (by simp [hg])]
        rfl

/-- Every pair emitted by the pending loop names a habit of the registry
slice it iterated over. -/
theorem pendingAux_fst_mem (today : Date) (logs : List (String × List DateTime)) :
    ∀ (habits : List (String × HabitRecord)) (x : String × String),
      x ∈ pendingAux today logs habits → x.1 ∈ habits.map Prod.fst := by
  intro habits
  induction habits with
  | nil => intro x hx; cases hx
  | cons hd rest ih =>
    intro x hx
    obtain ⟨habit, rec⟩ := hd
    rw [pendingAux] at hx
    by_cases hp : isPendingB today logs habit rec = true
    · rw [if_pos hp] at hx
      rw [List.map_cons]
      rcases List.mem_cons.mp hx with h | h
      · exact List.mem_cons.mpr (Or.inl (by rw [h]))
      · exact List.mem_cons.mpr (Or.inr (ih x h))
    · rw [if_neg hp] at hx
      rw [List.map_cons]
      exact List.mem_cons.mpr (Or.inr (ih x hx))

/-- Every row of the streaks report names a habit present both in the log
map slice it iterated over and in the registry. -/
theorem streakRows_mem (habits : List (String × HabitRecord)) :
    ∀ (logs : List (String × List DateTime)) (x : String × String × Nat),
      x ∈ streakRows habits logs →
        (alookup x.1 habits).isSome = true ∧ (alookup x.1 logs).isSome = true := by
  intro logs
  induction logs with
  | nil => intro x hx; cases hx
  | cons hd rest ih =>
    intro x hx
    obtain ⟨name, nlogs⟩ := hd
    rw [streakRows] at hx
    by_cases hk : name = x.1
    · constructor
      · cases hrec : alookup name habits with
        | none =>
          rw [hrec] at hx
          exact ((ih x hx).1)
        | some rec =>
          rw [← hk, hrec]
          rfl
      · rw [alookup, if_pos hk]
        rfl
    · have htail : x ∈ streakRows habits rest := by
        cases hrec : alookup name habits with
        | none =>
          rw [hrec] at hx
          exact hx
        | some rec =>
          rw [hrec] at hx
          rcases List.mem_cons.mp hx with h | h
          · exfalso
            apply hk
            rw [h]
          · exact h
      refine ⟨(ih x htail).1, ?_⟩
      rw [alookup, if_neg hk]
      exact (ih x htail).2

/-- Folding `min` over the counts never exceeds the accumulator. -/
theorem foldl_min_le_acc (xs : List (String × Nat)) :
    ∀ acc : Nat, xs.foldl (fun m s => Nat.min m s.2) acc ≤ acc := by
  induction xs with
  | nil => intro acc; exact Nat.le_refl acc
  | cons x xs ih =>
    intro acc
    exact Nat.le_trans (ih (Nat.min acc x.2)) (Nat.min_le_left acc x.2)

/-- Folding `min` over the counts bounds every member's count. -/
theorem foldl_min_le_mem (xs : List (String × Nat)) :
    ∀ (x : String × Nat), x ∈ xs →
      ∀ acc : Nat, xs.foldl (fun m s => Nat.min m s.2) acc ≤ x.2 := by
  induction xs with
  | nil => intro x hx; cases hx
  | cons y xs ih =>
    intro x hx acc
    rcases List.mem_cons.mp hx with h | h
    · calc xs.foldl (fun m s => Nat.min m s.2) (Nat.min acc y.2)
          ≤ Nat.min acc y.2 := foldl_min_le_acc xs (Nat.min acc y.2)
        _ ≤ y.2 := Nat.min_le_right acc y.2
        _ = x.2 := by rw [h]
    · exact ih x h (Nat.min acc y.2)

/-- The fold of `min` returns either the accumulator or some member's
count. -/
theorem foldl_min_attained (xs : List (String × Nat)) :
    ∀ acc : Nat, xs.foldl (fun m s => Nat.min m s.2) acc = acc
      ∨ ∃ x ∈ xs, xs.foldl (fun m s => Nat.min m s.2) acc = x.2 := by
  induction xs with
  | nil => intro acc; exact Or.inl rfl
  | cons y xs ih =>
    intro acc
    rcases ih (Nat.min acc y.2) with h | ⟨x, hx, hfx⟩
    · rcases Nat.le_total acc y.2 with hle | hle
      · left
        rw [List.foldl_cons, h]
        exact Nat.min_eq_left hle
      · right
        refine ⟨y, List.mem_cons_self y xs, ?_⟩
        rw [List.foldl_cons, h]
        exact Nat.min_eq_right hle
    · right
      exact ⟨x, List.mem_cons.mpr (Or.inr hx), hfx⟩

/-- `minCount` bounds every member's count. -/
theorem minCount_le_of_mem (l : List (String × Nat)) (x : String × Nat)
    (hx : x ∈ l) : minCount l ≤ x.2 := by
  cases l with
  | nil => cases hx
  | cons y ys =>
    rcases List.mem_cons.mp hx with h | h
    · rw [h]
      exact foldl_min_le_acc ys y.2
    · exact foldl_min_le_mem ys x h y.2

/-- `minCount` of a nonempty list is attained by some member. -/
theorem minCount_attained (l : List (String × Nat)) (hl : l ≠ []) :
    ∃ x ∈ l, x.2 = minCount l := by
  cases l with
  | nil => exact absurd rfl hl
  | cons y ys =>
    rcases foldl_min_attained ys y.2 with h | ⟨x, hx, hfx⟩
    · exact ⟨y, List.mem_cons_self y ys, h.symm⟩
    · exact ⟨x, List.mem_cons.mpr (Or.inr hx), hfx.symm⟩

/-- Inserting an element the filter rejects leaves the filtered list
unchanged. -/
theorem filter_orderedInsert_ne (mu : Nat) (x : String × Nat)
    (hx : ¬ x.2 = mu) :
    ∀ s : List (String × Nat),
      (List.orderedInsert keyLe x s).filter (fun s => s.2 = mu)
        = s.filter (fun s => s.2 = mu) := by
  have hxb : decide (x.2 = mu) = false := decide_eq_false hx
  intro s
  induction s with
  | nil =>
    rw [List.orderedInsert, List.filter_cons, hxb]
    rfl
  | cons y s ih =>
    rw [List.orderedInsert]
    by_cases hr : keyLe x y
    · rw [if_pos hr, List.filter_cons, hxb]
      rfl
    · rw [if_neg hr, List.filter_cons, List.filter_cons]
      cases hy : decide (y.2 = mu) with
      | true => rw [ih]
      | false => exact ih

/-- Inserting an element at most every member goes to the front. -/
theorem orderedInsert_of_min (x : String × Nat) (s : List (String × Nat))
    (h : ∀ y ∈ s, keyLe x y) :
    List.orderedInsert keyLe x s = x :: s := by
  cases s with
  | nil => rfl
  | cons y s =>
    rw [List.orderedInsert, if_pos (h y (List.mem_cons_self y s))]

/-- Filtering a stably sorted list for the minimum count gives the same
list as filtering the unsorted one: insertion sort preserves the relative
order of the minimal entries. -/
theorem filter_insertionSort_min (mu : Nat) :
    ∀ l : List (String × Nat), (∀ y ∈ l, mu ≤ y.2) →
      (List.insertionSort keyLe l).filter (fun s => s.2 = mu)
        = l.filter (fun s => s.2 = mu) := by
  intro l
  induction l with
  | nil => intro _; rfl
  | cons a l ih =>
    intro hb
    have hbl : ∀ y ∈ l, mu ≤ y.2 :=
      fun y hy => hb y (List.mem_cons.mpr (Or.inr hy))
    rw [List.insertionSort]
    by_cases ha : a.2 = mu
    · have hmin : ∀ y ∈ List.insertionSort keyLe l, keyLe a y := by
        intro y hy
        have hyl : y ∈ l := (List.mem_insertionSort keyLe).mp hy
        unfold keyLe
        rw [ha]
        exact hbl y hyl
      rw [orderedInsert_of_min a _ hmin, List.filter_cons, List.filter_cons,
        decide_eq_true ha, ih hbl]
    · rw [filter_orderedInsert_ne mu a ha, ih hbl, List.filter_cons,
        decide_eq_false ha]
      rfl

/-- For a daily habit with a nonempty log, the pending loop lists it exactly
when the date of the log's last element is strictly before today (registry
keys are distinct, as dict keys are). -/
theorem pendingAux_daily_mem (today : Date) (logs : List (String × List DateTime))
    (name : String) (r : HabitRecord) (hlogs : List DateTime) (t : DateTime)
    (hd : r.periodicity = "daily")
    (hl : alookup name logs = some hlogs)
    (ht : hlogs.getLast? = some t) :
    ∀ habits : List (String × HabitRecord),
      (habits.map Prod.fst).Nodup →
      alookup name habits = some r →
      (((name, r.periodicity) ∈ pendingAux today logs habits)
        ↔ dateLtB t.date today = true) := by
  intro habits
  induction habits with
  | nil =>
    intro _ hr
    rw [alookup] at hr
    cases hr
  | cons hd0 rest ih =>
    intro hnd hr
    obtain ⟨k, rec⟩ := hd0
    rw [List.map_cons] at hnd
    have hnd1 := (List.nodup_cons.mp hnd).1
    have hnd2 := (List.nodup_cons.mp hnd).2
    rw [alookup] at hr
    by_cases hk : k = name
    · rw [if_pos hk] at hr
      injection hr with hr'
      subst hr'
      subst hk
      have hpend : isPendingB today logs k rec = dateLtB t.date today := by
        simp only [isPendingB, hl, ht]
        by_cases hb : dateLtB t.date today = true
        · rw [if_pos ⟨hd, hb⟩, hb]
        · rw [if_neg (fun hc => hb hc.2),
            if_neg (fun hc => absurd (hd.symm.trans hc.1) (by decide))]
          have hfalse : dateLtB t.date today = false := by
            cases hcb : dateLtB t.date today with
            | true => exact absurd hcb hb
            | false => rfl
          rw [hfalse]
      rw [pendingAux]
      have hnotin : (k, rec.periodicity) ∉ pendingAux today logs rest := by
        intro hmem
        exact hnd1 (pendingAux_fst_mem today logs rest (k, rec.periodicity) hmem)
      by_cases hb : dateLtB t.date today = true
      · rw [hpend, if_pos hb]
        exact iff_of_true (List.mem_cons_self _ _) hb
      · rw [hpend, if_neg hb]
        exact iff_of_false hnotin hb
    · rw [if_neg hk] at hr
      have hrest := ih hnd2 hr
      rw [pendingAux]
      have hne : ¬ ((name, r.periodicity) = (k, rec.periodicity)) := by
        intro hc
        injection hc with h1 _
        exact hk h1.symm
      by_cases hp : isPendingB today logs k rec = true
      · rw [if_pos hp, List.mem_cons]
        constructor
        · intro hor
          rcases hor with hc | hm
          · exact absurd hc hne
          · exact hrest.mp hm
        · intro hbb
          exact Or.inr (hrest.mpr hbb)
      · rw [if_neg hp]
        exact hrest

/-! ### Claim theorems -/

/-- C1 (code bug): with a date filter, `delete_habit` is meant to remove
every check-in dated 2025-03-04, but at the failing input — a habit whose
only check-in is `2025-03-04T14:30:00` — it removes nothing (count 0,
document unchanged), because the `startswith` filter uses the full midnight
string `2025-03-04T00:00:00` as prefix.  The companion evaluation shows a
midnight check-in of the same date IS removed, isolating the prefix bug. -/
theorem delete_habit_date_filter_misses_afternoon_checkin :
    delete_habit "Workout" (some ⟨2025, 3, 4⟩) docAfternoon
        = (DeleteResult.removedCount 0, docAfternoon)
      ∧ (⟨2025, 3, 4, 14, 30, 0, 0⟩ : DateTime).date = ⟨2025, 3, 4⟩
      ∧ delete_habit "Workout" (some ⟨2025, 3, 4⟩) docMidnight
        = (DeleteResult.removedCount 1,
           ⟨[("Workout", sampleRec)], [("Workout", [⟨2025, 3, 5, 10, 0, 0, 0⟩])]⟩) := by
  refine ⟨by decide, rfl, by decide⟩

/-- C2 counterexample: `docLastStale` holds a daily habit with a check-in
dated today (2025-03-10) in its log, yet `get_pending_habits` flags it
pending, and transposing the two log entries flips the classification —
so pending is not determined by the most recent check-in and is not
invariant under permutation of the log. -/
theorem pending_daily_not_permutation_invariant :
    get_pending_habits ⟨2025, 3, 10⟩ docLastStale = [("Workout", "daily")]
      ∧ get_pending_habits ⟨2025, 3, 10⟩ docLastFresh = []
      ∧ docLastFresh.logs
          = docLastStale.logs.map (fun e => (e.1, e.2.reverse))
      ∧ (⟨2025, 3, 10, 8, 0, 0, 0⟩ : DateTime)
          ∈ (alookup "Workout" docLastStale.logs).getD []
      ∧ dateLtB (⟨2025, 3, 10, 8, 0, 0, 0⟩ : DateTime).date ⟨2025, 3, 10⟩
          = false := by
  refine ⟨by decide, by decide, by decide, by decide, by decide⟩

/-- C2 amended: a daily habit with a nonempty log is listed by
`get_pending_habits` iff the calendar date of the LAST log-list entry
(insertion order, `logs[-1]`) is strictly before today. -/
theorem pending_daily_iff_last_log_entry (today : Date) (doc : Doc)
    (name : String) (r : HabitRecord) (hlogs : List DateTime) (t : DateTime)
    (hnd : (doc.habits.map Prod.fst).Nodup)
    (hr : alookup name doc.habits = some r)
    (hd : r.periodicity = "daily")
    (hl : alookup name doc.logs = some hlogs)
    (ht : hlogs.getLast? = some t) :
    ((name, r.periodicity) ∈ get_pending_habits today doc)
      ↔ dateLtB t.date today = true := by
  unfold get_pending_habits
  exact pendingAux_daily_mem today doc.logs name r hlogs t hd hl ht
    doc.habits hnd hr

/-- Witness for C2 amended at `docLastStale`. -/
theorem pending_daily_iff_last_log_entry_witness :
    ("Workout", "daily") ∈ get_pending_habits ⟨2025, 3, 10⟩ docLastStale := by
  have h := pending_daily_iff_last_log_entry ⟨2025, 3, 10⟩ docLastStale
    "Workout" sampleRec
    [⟨2025, 3, 10, 8, 0, 0, 0⟩, ⟨2025, 3, 9, 8, 0, 0, 0⟩]
    ⟨2025, 3, 9, 8, 0, 0, 0⟩ (by decide) (by decide) rfl (by decide) (by decide)
  exact h.mpr (by decide)

/-- C3 counterexample: a successful `add_habit` on the empty document
creates the registry entry but NO log entry at all for the habit. -/
theorem add_habit_does_not_initialize_log :
    (add_habit "Workout" "daily" ⟨2025, 3, 10, 9, 0, 0, 0⟩ emptyDoc).1
        = AddResult.ok
      ∧ alookup "Workout"
          (add_habit "Workout" "daily" ⟨2025, 3, 10, 9, 0, 0, 0⟩ emptyDoc).2.logs
        = none := by
  refine ⟨by decide, by decide⟩

/-- C3 amended: a successful `add_habit` appends exactly the registry
record with `created_at = now` and leaves the log map untouched (the log
entry is created lazily by the first check-in). -/
theorem add_habit_inserts_record_only (name p : String) (now : DateTime)
    (doc : Doc) (hn : ¬ name = "") (hp : ¬ p = "")
    (habsent : alookup name doc.habits = none) :
    add_habit name p now doc
      = (AddResult.ok, ⟨doc.habits ++ [(name, ⟨p, now⟩)], doc.logs⟩) := by
  unfold add_habit
  rw [if_neg (fun h => h.elim hn hp), habsent]
  rfl

/-- Witness for C3 amended on the empty document. -/
theorem add_habit_inserts_record_only_witness :
    add_habit "Workout" "daily" ⟨2025, 3, 10, 9, 0, 0, 0⟩ emptyDoc
      = (AddResult.ok,
         ⟨[("Workout", ⟨"daily", ⟨2025, 3, 10, 9, 0, 0, 0⟩⟩)], []⟩) :=
  add_habit_inserts_record_only "Workout" "daily" ⟨2025, 3, 10, 9, 0, 0, 0⟩
    emptyDoc (by decide) (by decide) rfl

/-- C4: the streak the report shows equals the spec's description — one
plus the longest all-qualifying prefix of adjacent gaps of the
descending-sorted log, i.e. the single consecutive run extending backward
from the most recent check-in — and on three consecutive days it is 3,
while on `gappedWeek` (an older 5-day run, a 2-day gap, then a 2-day run)
it is 2, the most-recent unbroken run only. -/
theorem streaks_value_is_most_recent_run :
    (∀ (p : String) (logs : List DateTime),
        habitStreak p logs = specComputeStreak p logs)
      ∧ habitStreak "daily" threeConsecutive = 3
      ∧ habitStreak "daily" gappedWeek = 2 := by
  refine ⟨fun p logs => ?_, by decide, by decide⟩
  unfold habitStreak specComputeStreak
  cases h : sortDescDT logs with
  | nil => rfl
  | cons first rest => exact streakLoop_eq_run p rest first

/-- C5: in the weekly streak walk, a gap of exactly 7 whole days extends
the streak (and the walk continues from the earlier entry), while a gap of
8 whole days stops the walk at once. -/
theorem weekly_gap_seven_continues_eight_breaks :
    (∀ (prev t : DateTime) (rest : List DateTime), diffDays prev t = 7 →
        streakLoop "weekly" prev (t :: rest) = 1 + streakLoop "weekly" t rest)
      ∧ (∀ (prev t : DateTime) (rest : List DateTime), diffDays prev t = 8 →
        streakLoop "weekly" prev (t :: rest) = 1) := by
  constructor
  · intro prev t rest h
    rw [streakLoop, if_neg (fun hc => absurd hc.1 (by decide)),
      if_pos ⟨rfl, by rw [h]⟩]
  · intro prev t rest h
    rw [streakLoop, if_neg (fun hc => absurd hc.1 (by decide)),
      if_neg (fun hc => by rw [h] at hc; exact absurd hc.2 (by decide))]

/-- Witness for C5: check-ins 7 days apart give streak 2, 8 days apart
give streak 1. -/
theorem weekly_gap_seven_continues_eight_breaks_witness :
    streakLoop "weekly" ⟨2025, 3, 15, 0, 0, 0, 0⟩ [⟨2025, 3, 8, 0, 0, 0, 0⟩] = 2
      ∧ streakLoop "weekly" ⟨2025, 3, 16, 0, 0, 0, 0⟩ [⟨2025, 3, 8, 0, 0, 0, 0⟩]
        = 1 := by
  constructor
  · rw [weekly_gap_seven_continues_eight_breaks.1 ⟨2025, 3, 15, 0, 0, 0, 0⟩
      ⟨2025, 3, 8, 0, 0, 0, 0⟩ [] (by decide)]
    rfl
  · exact weekly_gap_seven_continues_eight_breaks.2 ⟨2025, 3, 16, 0, 0, 0, 0⟩
      ⟨2025, 3, 8, 0, 0, 0, 0⟩ [] (by decide)

/-- C6: for a nonempty registry, the struggled group equals the registry-
order struggle list filtered to the entries attaining the minimum 30-day
count — all ties included, order preserved by the stable sort. -/
theorem struggled_habits_min_count_group (now : DateTime) (doc : Doc)
    (h : doc.habits ≠ []) :
    struggledHabits now doc
      = (struggleList now doc).filter
          (fun s => s.2 = minCount (struggleList now doc)) := by
  have hne : struggleList now doc ≠ [] := by
    unfold struggleList
    intro hc
    exact h (List.map_eq_nil_iff.mp hc)
  unfold struggledHabits
  cases hs : List.insertionSort keyLe (struggleList now doc) with
  | nil =>
    exfalso
    have hperm := List.perm_insertionSort keyLe (struggleList now doc)
    rw [hs] at hperm
    exact hne (List.perm_nil.mp hperm.symm)
  | cons m rest =>
    dsimp only
    have hm_mem : m ∈ struggleList now doc := by
      have h1 : m ∈ List.insertionSort keyLe (struggleList now doc) := by
        rw [hs]
        exact List.mem_cons_self m rest
      exact (List.mem_insertionSort keyLe).mp h1
    have hle1 : minCount (struggleList now doc) ≤ m.2 :=
      minCount_le_of_mem _ m hm_mem
    have hsorted := List.sorted_insertionSort keyLe (struggleList now doc)
    rw [hs] at hsorted
    have hall : ∀ b ∈ rest, keyLe m b := (List.sorted_cons.mp hsorted).1
    obtain ⟨x, hxl, hxmin⟩ := minCount_attained (struggleList now doc) hne
    have hx_sorted : x ∈ m :: rest := by
      rw [← hs]
      exact (List.mem_insertionSort keyLe).mpr hxl
    have hle2 : m.2 ≤ minCount (struggleList now doc) := by
      rcases List.mem_cons.mp hx_sorted with hxm | hxr
      · rw [← hxmin, hxm]
      · rw [← hxmin]
        exact hall x hxr
    have hm2 : m.2 = minCount (struggleList now doc) :=
      Nat.le_antisymm hle2 hle1
    rw [hm2, ← hs]
    exact filter_insertionSort_min (minCount (struggleList now doc))
      (struggleList now doc) (fun y hy => minCount_le_of_mem _ y hy)

/-- Witness for C6 at counts `A: 0, B: 0, C: 5`: the whole tie group
`{A, B}` is returned, in registry order. -/
theorem struggled_habits_min_count_group_witness :
    struggledHabits nowStruggle docStruggle = [("A", 0), ("B", 0)] := by
  rw [struggled_habits_min_count_group nowStruggle docStruggle (by decide)]
  decide

/-- C7: adding a name that is already a registry key (with the non-empty
arguments a prior successful add implies) reports the duplicate and
returns the document unchanged — in particular the original record with
its `created_at` is preserved. -/
theorem add_habit_duplicate_already_exists (name p : String) (now : DateTime)
    (doc : Doc) (hn : ¬ name = "") (hp : ¬ p = "")
    (hdup : (alookup name doc.habits).isSome = true) :
    add_habit name p now doc = (AddResult.alreadyExists, doc) := by
  unfold add_habit
  rw [if_neg (fun h => h.elim hn hp), if_pos hdup]

/-- Witness for C7: a second `add_habit` of "Workout" on the state the
first one produced. -/
theorem add_habit_duplicate_already_exists_witness :
    add_habit "Workout" "daily" ⟨2025, 3, 11, 9, 0, 0, 0⟩
        (add_habit "Workout" "daily" ⟨2025, 3, 10, 9, 0, 0, 0⟩ emptyDoc).2
      = (AddResult.alreadyExists,
         (add_habit "Workout" "daily" ⟨2025, 3, 10, 9, 0, 0, 0⟩ emptyDoc).2) :=
  add_habit_duplicate_already_exists "Workout" "daily" ⟨2025, 3, 11, 9, 0, 0, 0⟩
    _ (by decide) (by decide) (by decide)

/-- C8: checking a registered habit with a `YYYY-MM-DD` date appends the
midnight timestamp of that date — hours, minutes, seconds and microseconds
all zero, date component the given date — unlike the default branch, which
appends `datetime.now()`. -/
theorem check_habit_with_date_appends_midnight (name : String) (d : Date)
    (now : DateTime) (doc : Doc)
    (hfound : (alookup name doc.habits).isSome = true) :
    check_habit name (some d) now doc
        = (CheckResult.ok,
           { doc with logs := appendLog name (midnightOf d) doc.logs })
      ∧ (midnightOf d).hour = 0 ∧ (midnightOf d).minute = 0
      ∧ (midnightOf d).second = 0 ∧ (midnightOf d).usec = 0
      ∧ (midnightOf d).date = d
      ∧ check_habit name none now doc
        = (CheckResult.ok, { doc with logs := appendLog name now doc.logs }) := by
  cases halook : alookup name doc.habits with
  | none =>
    rw [halook] at hfound
    exact absurd hfound (by decide)
  | some r =>
    refine ⟨?_, rfl, rfl, rfl, rfl, rfl, ?_⟩
    · unfold check_habit
      rw [halook]
      rfl
    · unfold check_habit
      rw [halook]
      rfl

/-- Witness for C8 on a one-habit document. -/
theorem check_habit_with_date_appends_midnight_witness :
    check_habit "Workout" (some ⟨2025, 3, 4⟩) ⟨2025, 3, 10, 9, 30, 0, 0⟩
        ⟨[("Workout", sampleRec)], []⟩
      = (CheckResult.ok,
         ⟨[("Workout", sampleRec)], [("Workout", [⟨2025, 3, 4, 0, 0, 0, 0⟩])]⟩) :=
  (check_habit_with_date_appends_midnight "Workout" ⟨2025, 3, 4⟩
    ⟨2025, 3, 10, 9, 30, 0, 0⟩ ⟨[("Workout", sampleRec)], []⟩ (by decide)).1

/-- C9: deleting by date from a registered habit that has no log-map entry
at all takes the early "no logs" path: no error, no removed-count report,
and the document is returned unchanged. -/
theorem delete_habit_no_logs_noop (name : String) (d : Date) (doc : Doc)
    (hfound : (alookup name doc.habits).isSome = true)
    (hnolog : alookup name doc.logs = none) :
    delete_habit name (some d) doc = (DeleteResult.noLogs, doc) := by
  cases halook : alookup name doc.habits with
  | none =>
    rw [halook] at hfound
    exact absurd hfound (by decide)
  | some r =>
    unfold delete_habit
    rw [halook, hnolog]
    rfl

/-- Witness for C9 on a one-habit document with an empty log map. -/
theorem delete_habit_no_logs_noop_witness :
    delete_habit "Workout" (some ⟨2025, 3, 4⟩) ⟨[("Workout", sampleRec)], []⟩
      = (DeleteResult.noLogs, ⟨[("Workout", sampleRec)], []⟩) :=
  delete_habit_no_logs_noop "Workout" ⟨2025, 3, 4⟩
    ⟨[("Workout", sampleRec)], []⟩ (by decide) rfl

/-- C10: the streaks report contains no row for a habit name that is
missing from the registry (orphan log entries are skipped) or missing from
the log map (registry habits with no log entry are omitted, not shown with
streak 0). -/
theorem streak_rows_skip_unregistered_and_unlogged (doc : Doc) (name : String)
    (h : alookup name doc.habits = none ∨ alookup name doc.logs = none) :
    ∀ (period : String) (st : Nat),
      (name, period, st) ∉ streakRows doc.habits doc.logs := by
  intro period st hmem
  have hs := streakRows_mem doc.habits doc.logs (name, period, st) hmem
  have hs1 : (alookup name doc.habits).isSome = true := hs.1
  have hs2 : (alookup name doc.logs).isSome = true := hs.2
  rcases h with h | h
  · rw [h] at hs1
    exact absurd hs1 (by decide)
  · rw [h] at hs2
    exact absurd hs2 (by decide)

/-- Witness for C10 on `docOrphan`: the orphan log name "B" yields no row
(and neither does the log-less registry habit "Z"). -/
theorem streak_rows_skip_unregistered_and_unlogged_witness :
    ("B", "daily", 1) ∉ streakRows docOrphan.habits docOrphan.logs :=
  streak_rows_skip_unregistered_and_unlogged docOrphan "B" (Or.inl rfl)
    "daily" 1

end HCLI
